import Mathlib

/-!
Verification development for the SAP Commerce Cloud bridge services
(category tree building, bidirectional id/url cache, bulk resolvers for
categories, products and content pages, keyword filter and paginator).

The JavaScript services are shallowly embedded: JS arrays-or-undefined
become an explicit `Subcats` sum, the process-wide `Map` cache becomes an
insertion-ordered association list threaded through the functions, promise
rejections become `Except` errors, and the `TypeError` raised by iterating
`undefined` becomes an explicit error value.
-/

set_option maxHeartbeats 1000000

namespace SapBridge

/-- Errors observable at the service boundary: a `TypeError` thrown by JS
iteration over `undefined`, a rejected remote call (its payload modelled as
a string token), and a `ShopError` wrapping a remote payload. -/
inductive JsErr where
| typeError
| remote (e : String)
| shopError (msg : String)
deriving DecidableEq, Repr

/- Remote category node as delivered by the catalog endpoint:
`{id, name, url, subcategories}` where the `subcategories` field may be
absent (`undefined`) or an array. A missing `name` is modelled by the
empty string (both are falsy in JS). -/
mutual
inductive Category where
| mk (id : String) (name : String) (url : String) (subcategories : Subcats)
inductive Subcats where
| undefined
| arr (cats : CatList)
inductive CatList where
| nil
| cons (head : Category) (tail : CatList)
end

deriving instance DecidableEq for Category
deriving instance DecidableEq for Subcats
deriving instance DecidableEq for CatList

def Category.id : Category → String
| .mk i _ _ _ => i

def Category.name : Category → String
| .mk _ n _ _ => n

def Category.url : Category → String
| .mk _ _ u _ => u

def Category.subcategories : Category → Subcats
| .mk _ _ _ s => s

/-- Number of top-level categories (JS `categories.length`). -/
def CatList.length : CatList → Nat
| .nil => 0
| .cons _ rest => 1 + rest.length

/-- View of a `CatList` as a Lean list, used to state membership facts. -/
def CatList.toList : CatList → List Category
| .nil => []
| .cons c rest => c :: rest.toList

/- Normalized bridge node `{id, label, children?}`; `Children.omitted`
records that the `children` key is absent from the object (the builder
spreads it only for a non-empty array), and a flat-list item `{id, label}`
is a node with the key absent. -/
mutual
inductive TreeNode where
| mk (id : String) (label : String) (children : Children)
inductive Children where
| omitted
| arr (nodes : NodeList)
inductive NodeList where
| nil
| cons (head : TreeNode) (tail : NodeList)
end

deriving instance DecidableEq for TreeNode
deriving instance DecidableEq for Children
deriving instance DecidableEq for NodeList

def TreeNode.id : TreeNode → String
| .mk i _ _ => i

def TreeNode.label : TreeNode → String
| .mk _ l _ => l

def TreeNode.children : TreeNode → Children
| .mk _ _ c => c

def NodeList.length : NodeList → Nat
| .nil => 0
| .cons _ rest => 1 + rest.length

def NodeList.append : NodeList → NodeList → NodeList
| .nil, l => l
| .cons n rest, l => .cons n (rest.append l)

/-- JS spread `...(children.length && { children })`: the key is present
exactly for a non-empty array. -/
def childrenOf (l : NodeList) : Children :=
  match l with
  | .nil => .omitted
  | .cons n rest => .arr (.cons n rest)

/- `buildCategoryTree`: recursively maps each category to
`{id, label: name, children?}`, with `subcategories` defaulted to `[]`
by the destructuring and `children` spread only when non-empty. -/
mutual
def buildCategoryTree : CatList → NodeList
| .nil => .nil
| .cons c rest => .cons (buildTreeNode c) (buildCategoryTree rest)
def buildTreeNode : Category → TreeNode
| .mk i n _ sub => .mk i n (childrenOf (buildTreeSub sub))
def buildTreeSub : Subcats → NodeList
| .undefined => .nil
| .arr l => buildCategoryTree l
end

/- `getCategoryList`: pre-order flat list pushing `{id, label: name}` for
each node, recursing only when `subcategories && subcategories.length`. -/
mutual
def getCategoryList : CatList → NodeList
| .nil => .nil
| .cons (.mk i n _ sub) rest =>
    .cons (.mk i n .omitted) (NodeList.append (listSub sub) (getCategoryList rest))
def listSub : Subcats → NodeList
| .undefined => .nil
| .arr .nil => .nil
| .arr (.cons c rest) => getCategoryList (.cons c rest)
end

/- `countCategories`: `tree.reduce((count, {children = []}) => count + 1 +
countCategories(children), 0)`. -/
mutual
def countCategories : NodeList → Nat
| .nil => 0
| .cons (.mk _ _ ch) rest => countCategories rest + (1 + countChildren ch)
def countChildren : Children → Nat
| .omitted => 0
| .arr l => countCategories l
end

/-- The process-wide `Map` cache, as an insertion-ordered association
list: `Map.set` updates an existing key in place and appends a new one. -/
abbrev JsMap := List (String × String)

def jsSet : JsMap → String → String → JsMap
| [], k, v => [(k, v)]
| p :: rest, k, v => if p.1 == k then (k, v) :: rest else p :: jsSet rest k v

def jsGet : JsMap → String → Option String
| [], _ => none
| p :: rest, k => if p.1 == k then some p.2 else jsGet rest k

def jsHas : JsMap → String → Bool
| [], _ => false
| p :: rest, k => p.1 == k || jsHas rest k

/- `buildCache`: `categories.forEach(({id, url, subcategories}) => {
idCache.set(id, url); idCache.set(url, id); buildCache(subcategories); })`.
Iterating an absent `subcategories` throws a `TypeError`. -/
mutual
def buildCache (m : JsMap) : CatList → Except JsErr JsMap
| .nil => .ok m
| .cons (.mk i _ u sub) rest =>
    match buildCacheSub (jsSet (jsSet m i u) u i) sub with
    | .error e => .error e
    | .ok m2 => buildCache m2 rest
def buildCacheSub (m : JsMap) : Subcats → Except JsErr JsMap
| .undefined => .error .typeError
| .arr l => buildCache m l
end

/-- The `parentId` argument as passed in JS: absent, a string (empty
strings are falsy), or the literal `true` that `getCategoryUrl` passes
(truthy, but `===`-equal to no category id). -/
inductive ParentArg where
| absent
| str (s : String)
| boolTrue
deriving DecidableEq

def ParentArg.truthy : ParentArg → Bool
| .absent => false
| .str s => !(s == "")
| .boolTrue => true

def ParentArg.matchesId : ParentArg → String → Bool
| .str s, i => s == i
| .absent, _ => false
| .boolTrue, _ => false

/-- JS `a || b` on an array-or-undefined value: an array, even empty, is
truthy. -/
def jsOr {α : Type} (a b : Option α) : Option α :=
  match a with
  | some x => some x
  | none => b

/-- JS `category.subcategories || []`. -/
def subOrEmpty : Subcats → CatList
| .undefined => .nil
| .arr l => l

/- `getRelevantCategories(categories, parentId, getTree)`: with a truthy
`parentId` it loops over the siblings, overwriting `result` on a self
match and then with any recursive find (`result = recurse(...) || result`);
the recursion into `category.subcategories` is unguarded, so an absent
field throws a `TypeError`. With a falsy `parentId` it shapes the whole
forest. -/
mutual
def getRelevantCategories (cats : Subcats) (parentId : ParentArg) (getTree : Bool) :
    Except JsErr (Option NodeList) :=
  if parentId.truthy then
    match cats with
    | .undefined => .error .typeError
    | .arr l => grcLoop l parentId getTree none
  else
    match cats with
    | .undefined => .error .typeError
    | .arr l => .ok (some (if getTree then buildCategoryTree l else getCategoryList l))
def grcLoop (l : CatList) (parentId : ParentArg) (getTree : Bool) (result : Option NodeList) :
    Except JsErr (Option NodeList) :=
  match l with
  | .nil => .ok result
  | .cons (.mk i _ _ sub) rest =>
      let r1 := if parentId.matchesId i then
          some (if getTree then buildCategoryTree (subOrEmpty sub) else getCategoryList (subOrEmpty sub))
        else result
      match getRelevantCategories sub parentId getTree with
      | .error e => .error e
      | .ok subRes => grcLoop rest parentId getTree (jsOr subRes r1)
end

/-- Remote payload of the full catalog fetch: `{data: {categories?}, status}`,
with `categories` defaulted to `[]` when the field is missing. -/
structure RemoteResp where
  categories : Option CatList
  status : Nat
deriving DecidableEq

structure FetchRet where
  status : Nat
  data : NodeList
  total : Nat
deriving DecidableEq

/-- Source `categories.filter(({name}) => !!name)` — applied to the top level of
the fetched forest only. -/
def topFilter : CatList → CatList
| .nil => .nil
| .cons c rest => if c.name == "" then topFilter rest else .cons c (topFilter rest)

/-- Source `fetchCategories(lang, parentId, getTree)`: awaits the catalog
response (a rejection propagates), filters unnamed top-level categories,
populates the cache and shapes the result (`|| []`). The cache argument
makes the mutation of the process-wide `idCache` explicit. -/
def fetchCategories (cache : JsMap) (resp : Except String RemoteResp) (parentId : ParentArg)
    (getTree : Bool) : Except JsErr (JsMap × FetchRet) :=
  match resp with
  | .error e => .error (.remote e)
  | .ok r =>
    let categories := topFilter (r.categories.getD .nil)
    match buildCache cache categories with
    | .error e => .error e
    | .ok cache2 =>
      match getRelevantCategories (.arr categories) parentId getTree with
      | .error e => .error e
      | .ok dataOpt =>
        .ok (cache2, { status := r.status, data := dataOpt.getD .nil, total := categories.length })

/-- Source `getCategoryUrl(categoryId, lang)`: triggers `fetchCategories(lang, true)`
only when the cache is empty; a cached id yields `{url}`, a missing id
yields `null` (modelled `none`) after logging. -/
def getCategoryUrl (cache : JsMap) (resp : Except String RemoteResp) (categoryId : String) :
    Except JsErr (JsMap × Option String) :=
  let after : Except JsErr JsMap :=
    if cache.length == 0 then
      match fetchCategories cache resp .boolTrue false with
      | .error e => .error e
      | .ok (c2, _) => .ok c2
    else .ok cache
  match after with
  | .error e => .error e
  | .ok c2 => .ok (c2, if jsHas c2 categoryId then jsGet c2 categoryId else none)

def NodeList.filter (p : TreeNode → Bool) : NodeList → NodeList
| .nil => .nil
| .cons n rest => if p n then .cons n (NodeList.filter p rest) else NodeList.filter p rest

def NodeList.drop (k : Nat) : NodeList → NodeList
| .nil => .nil
| .cons n rest => match k with
  | 0 => .cons n rest
  | k + 1 => NodeList.drop k rest

def NodeList.take (k : Nat) : NodeList → NodeList
| .nil => .nil
| .cons n rest => match k with
  | 0 => .nil
  | k + 1 => .cons n (NodeList.take k rest)

/-- JS `haystack.includes(needle)` on lists of characters. -/
def includesList (q : List Char) : List Char → Bool
| [] => q.isEmpty
| c :: rest => q.isPrefixOf (c :: rest) || includesList q rest

/-- JS `s.includes(q)`. -/
def strIncludes (s q : String) : Bool :=
  includesList q.toList s.toList

/-- Source `filterCategories(keyword, categories)`: case-insensitive substring
match of each label against the keyword. -/
def filterCategories (keyword : String) (categories : NodeList) : NodeList :=
  NodeList.filter (fun n => strIncludes n.label.toLower keyword.toLower) categories

structure PageRet where
  categories : NodeList
  total : Nat
  hasNext : Bool
deriving DecidableEq

/-- Source `categoriesGet(parentId, keyword, lang, page = 1)`: flat fetch, keyword
filter when the keyword is truthy, `total` before slicing, `hasNext =
page * pageSize <= total`, slice `[pageSize*(page-1), pageSize*page)` with
the fixed `LIMIT = 20`. -/
def categoriesGet (cache : JsMap) (resp : Except String RemoteResp) (parentId : ParentArg)
    (keyword : String) (page : Nat) : Except JsErr PageRet :=
  match fetchCategories cache resp parentId false with
  | .error e => .error e
  | .ok (_, r) =>
    let data := if keyword == "" then r.data else filterCategories keyword r.data
    let total := NodeList.length data
    let pageSize := 20
    let hasNext := decide (page * pageSize ≤ total)
    let start := pageSize * (page - 1)
    let stop := pageSize * page
    .ok { categories := NodeList.take (stop - start) (NodeList.drop start data)
          total := total
          hasNext := hasNext }

/-- Payload of a single-category lookup; `errors` models the presence of a
truthy `errors` key (the transport passes `UnknownIdentifierError`
responses through as successes carrying one). -/
structure CatData where
  id : String
  name : String
  errors : Bool
deriving DecidableEq

structure IdLabel where
  id : String
  label : String
deriving DecidableEq

structure CatsByIdsRet where
  categories : List IdLabel
  status : Nat
deriving DecidableEq

/-- The per-identifier `try`/`catch` of `fetchCategoriesByIds`: each caught
failure contributes an `{errors: true}` placeholder and overwrites
`lastError`, so the recorded error is the failing identifier latest in
order. -/
def settleByIds (fetch : String → Except String CatData) :
    List String → List CatData × Option String
| [] => ([], none)
| i :: rest =>
    let (rs, le) := settleByIds fetch rest
    match fetch i with
    | .ok d => (d :: rs, le)
    | .error e => ({ id := "", name := "", errors := true } :: rs, jsOr le (some e))

/-- Source `fetchCategoriesByIds({categoryIds, lang})`: rejects with `lastError`
when any identifier failed; otherwise drops `errors`-flagged payloads and
maps to `{id, label: name}`. -/
def fetchCategoriesByIds (fetch : String → Except String CatData) (categoryIds : List String) :
    Except String CatsByIdsRet :=
  let (results, lastError) := settleByIds fetch categoryIds
  match lastError with
  | some e => .error e
  | none =>
    .ok { categories := (results.filter (fun d => !d.errors)).map (fun d => ⟨d.id, d.name⟩)
          status := 200 }

structure IdsPageRet where
  categories : List IdLabel
  total : Nat
  hasNext : Bool
deriving DecidableEq

/-- Source `categoriesCategoryIdsGet(categoryIds, lang)`. -/
def categoriesCategoryIdsGet (fetch : String → Except String CatData)
    (categoryIds : List String) : Except String IdsPageRet :=
  match fetchCategoriesByIds fetch categoryIds with
  | .error e => .error e
  | .ok r => .ok { categories := r.categories, total := r.categories.length, hasNext := false }

/-- Remote product payload `{code, name, url, images: [{format, url}]}`;
`errors` as in `CatData`. -/
structure ProductData where
  code : String
  name : String
  url : String
  images : List (String × String)
  errors : Bool
deriving DecidableEq

structure ProductOut where
  id : String
  label : String
  extract : String
  thumbnail : Option String
  image : Option String
deriving DecidableEq

/-- Configured media base URL (environment value `MEDIA_CDN_URL`). -/
def MEDIA_CDN_URL : String := "https://media.example"

/-- Source `images.reduce((map, {format, url}) => Object.assign(map, {[format]:
MEDIA_CDN_URL + url}), {})` followed by destructuring one format key: the
last image of a format wins. -/
def imageFor (images : List (String × String)) (fmt : String) : Option String :=
  ((images.filter (fun p => p.1 == fmt)).getLast?).map (fun p => MEDIA_CDN_URL ++ p.2)

def transformProduct (p : ProductData) : ProductOut :=
  { id := p.code, label := p.name, extract := p.url
    thumbnail := imageFor p.images "thumbnail", image := imageFor p.images "product" }

/-- The per-identifier `try`/`catch` of the `productIds` branch of
`fetchProducts`; `errorMessage` records `error.data` of the latest
failure. -/
def settleProducts (fetch : String → Except String ProductData) :
    List String → List ProductData × Option String
| [] => ([], none)
| i :: rest =>
    let (rs, le) := settleProducts fetch rest
    match fetch i with
    | .ok d => (d :: rs, le)
    | .error e =>
        ({ code := "", name := "", url := "", images := [], errors := true } :: rs, jsOr le (some e))

structure ProductsRet where
  products : List ProductOut
  total : Nat
  hasNext : Bool
  responseStatus : Nat
deriving DecidableEq

/-- The `productIds` branch of `fetchProducts`: per-identifier fetches,
`errors`-flagged payloads filtered, but any caught failure makes the whole
call reject with `new ShopError(errorMessage)`. -/
def fetchProducts (fetch : String → Except String ProductData) (productIds : List String) :
    Except JsErr ProductsRet :=
  let (results, lastError) := settleProducts fetch productIds
  let okProducts := results.filter (fun p => !p.errors)
  match lastError with
  | some e => .error (.shopError e)
  | none =>
    .ok { products := okProducts.map transformProduct, total := okProducts.length
          hasNext := false, responseStatus := 200 }

structure ProductsIdsRet where
  products : List ProductOut
  total : Nat
  hasNext : Bool
deriving DecidableEq

/-- Source `productsProductIdsGet(productIds)`. -/
def productsProductIdsGet (fetch : String → Except String ProductData)
    (productIds : List String) : Except JsErr ProductsIdsRet :=
  match fetchProducts fetch productIds with
  | .error e => .error e
  | .ok r => .ok { products := r.products, total := r.products.length, hasNext := false }

/-- Remote CMS page payload (fields consumed by the transformer). -/
structure CmsPage where
  uuid : String
  name : String
  label : String
deriving DecidableEq

structure PageBody where
  id : String
  label : String
  extract : String
deriving DecidableEq

/-- Source `createContentPageResponseBody(page)`. -/
def createContentPageResponseBody (page : CmsPage) : PageBody :=
  { id := page.uuid, label := page.name, extract := page.label }

/-- The `Promise.all` join over the unguarded `fetchContentPageById` calls: the
first rejection in order fails the whole batch. -/
def settleAll (fetch : String → Except String CmsPage) :
    List String → Except String (List CmsPage)
| [] => .ok []
| i :: rest =>
    match fetch i with
    | .error e => .error e
    | .ok p =>
        match settleAll fetch rest with
        | .error e => .error e
        | .ok ps => .ok (p :: ps)

structure PagesRet where
  pages : List PageBody
  total : Nat
  hasNext : Bool
  responseStatus : Nat
deriving DecidableEq

/-- The `contentIds` branch of `fetchContentPages`: joins all fetches
(first error rejects the batch), transforms and keeps only pages with a
truthy `id`. -/
def fetchContentPages (fetch : String → Except String CmsPage) (contentIds : List String) :
    Except String PagesRet :=
  match settleAll fetch contentIds with
  | .error e => .error e
  | .ok raw =>
      let pages := (raw.map createContentPageResponseBody).filter (fun p => !(p.id == ""))
      .ok { pages := pages, total := pages.length, hasNext := false, responseStatus := 200 }

structure ContentIdsRet where
  contentPages : List PageBody
  total : Nat
  hasNext : Bool
deriving DecidableEq

/-- Source `contentPagesContentIdsGet(contentIds, lang)`. -/
def contentPagesContentIdsGet (fetch : String → Except String CmsPage)
    (contentIds : List String) : Except String ContentIdsRet :=
  match fetchContentPages fetch contentIds with
  | .error e => .error e
  | .ok r => .ok { contentPages := r.pages, total := r.pages.length, hasNext := false }

/-- Environment value `CONTENT_CATALOG_ID`. -/
def CONTENT_CATALOG_ID : String := "contentCatalog"

/-- Environment value `CONTENT_CATALOG_VERSION`. -/
def CONTENT_CATALOG_VERSION : String := "Staged"

structure WriteBody where
  label : String
  template : String
  visible : Bool
deriving DecidableEq

/-- Remote `cmsitems` body; `titleKey`/`titleValue` model the computed
`title: {[lang.toLowerCase()]: label}` entry. -/
structure CmsItemBody where
  uuid : Option String
  uid : String
  itemtype : String
  catalogVersion : String
  masterTemplate : String
  approvalStatus : String
  pageStatus : String
  defaultPage : Bool
  homepage : Bool
  label : String
  name : String
  titleKey : String
  titleValue : String
deriving DecidableEq

/-- Source `createContentPageRequestBody(requestBody, lang, uuid)`. -/
def createContentPageRequestBody (requestBody : WriteBody) (lang : String)
    (uuid : Option String) : CmsItemBody :=
  { uuid := uuid
    uid := requestBody.label
    itemtype := "ContentPage"
    catalogVersion := CONTENT_CATALOG_ID ++ "/" ++ CONTENT_CATALOG_VERSION
    masterTemplate := requestBody.template
    approvalStatus := if requestBody.visible then "APPROVED" else "UNAPPROVED"
    pageStatus := if requestBody.visible then "ACTIVE" else "DELETED"
    defaultPage := true
    homepage := false
    label := requestBody.label
    name := requestBody.label
    titleKey := lang.toLower
    titleValue := requestBody.label }

/- Specification-side helpers (stated over the embedded data, used to
characterize the functions above). -/

/- `true` when every node of the forest, at any depth, carries a
`subcategories` array. -/
mutual
def allDefinedList : CatList → Bool
| .nil => true
| .cons (.mk _ _ _ sub) rest => allDefinedSub sub && allDefinedList rest
def allDefinedSub : Subcats → Bool
| .undefined => false
| .arr l => allDefinedList l
end

/- All nodes of a forest in pre-order (a node before its descendants,
siblings in order). -/
mutual
def reachList : CatList → List Category
| .nil => []
| .cons (.mk i n u sub) rest => Category.mk i n u sub :: (reachSub sub ++ reachList rest)
def reachSub : Subcats → List Category
| .undefined => []
| .arr l => reachList l
end

/- The sequence of `Map.set` operations performed by `buildCache`, in
execution order. -/
mutual
def cachePairs : CatList → List (String × String)
| .nil => []
| .cons (.mk i _ u sub) rest => (i, u) :: (u, i) :: (cachePairsSub sub ++ cachePairs rest)
def cachePairsSub : Subcats → List (String × String)
| .undefined => []
| .arr l => cachePairs l
end

/-- Replay a sequence of `Map.set` operations. -/
def setsAll (m : JsMap) (ps : List (String × String)) : JsMap :=
  ps.foldl (fun acc p => jsSet acc p.1 p.2) m

/- The subcategory list of the node that the `getRelevantCategories` loop
leaves in `result`: the match latest in pre-order (later siblings and
deeper matches overwrite earlier ones). -/
mutual
def lastMatchList : CatList → ParentArg → Option Subcats
| .nil, _ => none
| .cons (.mk i _ _ sub) rest, pid =>
    jsOr (lastMatchList rest pid)
      (jsOr (lastMatchSub sub pid) (if pid.matchesId i then some sub else none))
def lastMatchSub : Subcats → ParentArg → Option Subcats
| .undefined, _ => none
| .arr l, pid => lastMatchList l pid
end

/-- Shape selector `getTree ? buildCategoryTree(x) : getCategoryList(x)`. -/
def shapeCats (getTree : Bool) (l : CatList) : NodeList :=
  if getTree then buildCategoryTree l else getCategoryList l

/-- Does a flat result list contain a node with the given id? -/
def listHasId : NodeList → String → Bool
| .nil, _ => false
| .cons (.mk j _ _) rest, i => j == i || listHasId rest i

/- Does a tree-shaped result contain a node with the given id, at any
depth? -/
mutual
def treeHasId : NodeList → String → Bool
| .nil, _ => false
| .cons (.mk j _ ch) rest, i => j == i || childrenHasId ch i || treeHasId rest i
def childrenHasId : Children → String → Bool
| .omitted, _ => false
| .arr l, i => treeHasId l i
end

deriving instance DecidableEq for Except

def isOkB {ε α : Type} : Except ε α → Bool
| .ok _ => true
| .error _ => false

def errOf {ε α : Type} : Except ε α → Option ε
| .error e => some e
| .ok _ => none

def okOf {ε α : Type} : Except ε α → Option α
| .ok a => some a
| .error _ => none

/-- The last error in a list of settled outcomes (JS `lastError`: each
caught rejection overwrites it, so the latest one wins). -/
def lastErrList {ε α : Type} : List (Except ε α) → Option ε
| [] => none
| r :: rest => jsOr (lastErrList rest) (errOf r)

/-- The first error in a list of settled outcomes (what `Promise.all`
without a per-item catch rejects with). -/
def firstErrList {ε α : Type} : List (Except ε α) → Option ε
| [] => none
| r :: rest => match r with
  | .error e => some e
  | .ok _ => firstErrList rest

/-- Cache resulting from a `buildCache` run (empty on a thrown error). -/
def cacheOfBuild (r : Except JsErr JsMap) : JsMap :=
  match r with
  | .ok m => m
  | .error _ => []

/-- Cache resulting from a `fetchCategories` call. -/
def cacheOfFetch (r : Except JsErr (JsMap × FetchRet)) : JsMap :=
  match r with
  | .ok (m, _) => m
  | .error _ => []

/-- The `data` of a successful `fetchCategories` call. -/
def dataOfFetch (r : Except JsErr (JsMap × FetchRet)) : NodeList :=
  match r with
  | .ok (_, fr) => fr.data
  | .error _ => .nil

/- Concrete inputs used for witnesses and counterexamples. -/

/-- A named root with a nested child whose `name` is empty. -/
def forestNested : CatList :=
  .cons (.mk "a" "A" "ua" (.arr (.cons (.mk "b" "" "ub" (.arr .nil)) .nil))) .nil

/-- Two sibling roots sharing the identifier `p`, with distinct children. -/
def dupForest : CatList :=
  .cons (.mk "p" "P1" "u1" (.arr (.cons (.mk "x" "X" "ux" (.arr .nil)) .nil)))
    (.cons (.mk "p" "P2" "u2" (.arr (.cons (.mk "y" "Y" "uy" (.arr .nil)) .nil))) .nil)

/-- Two roots with the same id `a` but different urls. -/
def collideForest : CatList :=
  .cons (.mk "a" "A" "u1" (.arr .nil)) (.cons (.mk "a" "B" "u2" (.arr .nil)) .nil)

/-- An unnamed root shadowing a descendant that lacks `subcategories`. -/
def shadowForest : CatList :=
  .cons (.mk "u" "" "uu" (.arr (.cons (.mk "w" "W" "uw" .undefined) .nil))) .nil

/-- A flat forest of `n` named leaf categories. -/
def catsN : Nat → CatList
| 0 => .nil
| n + 1 => .cons (.mk "c" "C" "u" (.arr .nil)) (catsN n)

/-- The flat result nodes corresponding to `catsN`. -/
def nodesN : Nat → NodeList
| 0 => .nil
| n + 1 => .cons (.mk "c" "C" .omitted) (nodesN n)

example : getRelevantCategories (.arr dupForest) (.str "p") false
    = .ok (some (.cons (.mk "y" "Y" .omitted) .nil)) := by decide

example : jsGet (cacheOfBuild (buildCache [] collideForest)) "a" = some "u2" := by decide

example : fetchCategories [] (.ok ⟨some shadowForest, 200⟩) .absent false
    = .ok ([], { status := 200, data := .nil, total := 0 }) := by decide

example : listHasId (dataOfFetch (fetchCategories [] (.ok ⟨some forestNested, 200⟩) .absent false)) "b"
    = true := by decide

example : jsGet (cacheOfFetch (fetchCategories [] (.ok ⟨some forestNested, 200⟩) .absent false)) "b"
    = some "ub" := by decide

example : buildCategoryTree (.cons (.mk "a" "A" "ua" (.arr .nil)) .nil)
    = .cons (.mk "a" "A" .omitted) .nil := rfl

/- Basic algebra of the JS `||` on array-or-undefined values. -/

theorem jsOr_none_right {α : Type} (a : Option α) : jsOr a none = a := by
  cases a <;> rfl

theorem jsOr_assoc {α : Type} (a b c : Option α) : jsOr (jsOr a b) c = jsOr a (jsOr b c) := by
  cases a <;> rfl

theorem jsOr_map {α β : Type} (f : α → β) (a b : Option α) :
    (jsOr a b).map f = jsOr (a.map f) (b.map f) := by
  cases a <;> rfl

theorem append_length : ∀ a b : NodeList,
    (NodeList.append a b).length = a.length + b.length
| .nil, b => by simp [NodeList.append, NodeList.length]
| .cons n rest, b => by
    simp [NodeList.append, NodeList.length, append_length rest b]; omega

/- Flat-list length versus recursive tree count. -/

theorem countChildren_childrenOf (l : NodeList) :
    countChildren (childrenOf l) = countCategories l := by
  cases l <;> rfl

mutual
theorem getCategoryList_length_eq : ∀ l : CatList,
    (getCategoryList l).length = countCategories (buildCategoryTree l)
| .nil => rfl
| .cons (.mk i n u sub) rest => by
    have h1 := listSub_length_eq sub
    have h2 := getCategoryList_length_eq rest
    simp only [getCategoryList, buildCategoryTree, buildTreeNode, countCategories,
      NodeList.length, append_length, countChildren_childrenOf, h1, h2]
    omega
theorem listSub_length_eq : ∀ s : Subcats,
    (listSub s).length = countCategories (buildTreeSub s)
| .undefined => rfl
| .arr .nil => rfl
| .arr (.cons c rest) => getCategoryList_length_eq (.cons c rest)
end

/- The `children` key of a built node is omitted exactly for an empty or
absent subcategory array. -/

theorem buildTreeSub_eq_nil_iff (s : Subcats) :
    buildTreeSub s = .nil ↔ (s = .undefined ∨ s = .arr .nil) := by
  cases s with
  | undefined => simp [buildTreeSub]
  | arr l => cases l <;> simp [buildTreeSub, buildCategoryTree]

theorem childrenOf_eq_omitted_iff (l : NodeList) : childrenOf l = .omitted ↔ l = .nil := by
  cases l <;> simp [childrenOf]

/- The top-level name filter of `fetchCategories`. -/

theorem topFilter_toList : ∀ f : CatList,
    (topFilter f).toList = f.toList.filter (fun c => !(c.name == ""))
| .nil => rfl
| .cons c rest => by
    have ih := topFilter_toList rest
    cases hc : c.name == "" <;>
      simp [topFilter, CatList.toList, hc, ih, List.filter_cons]

theorem topFilter_idem : ∀ f : CatList, topFilter (topFilter f) = topFilter f
| .nil => rfl
| .cons c rest => by
    have ih := topFilter_idem rest
    cases hc : c.name == "" <;> simp [topFilter, hc, ih]

/- Characterization of the per-identifier settle loops. -/

/-- The `{errors: true}` placeholder produced by the categories catch. -/
def phCat : CatData := { id := "", name := "", errors := true }

/-- The `{errors: true}` placeholder produced by the products catch. -/
def phProd : ProductData := { code := "", name := "", url := "", images := [], errors := true }

theorem settleByIds_eq (fetch : String → Except String CatData) (ids : List String) :
    settleByIds fetch ids =
      (ids.map (fun i => (okOf (fetch i)).getD phCat), lastErrList (ids.map fetch)) := by
  induction ids with
  | nil => rfl
  | cons i rest ih =>
      cases hf : fetch i <;>
        simp [settleByIds, ih, lastErrList, errOf, okOf, hf, phCat, jsOr_none_right]

theorem settleProducts_eq (fetch : String → Except String ProductData) (ids : List String) :
    settleProducts fetch ids =
      (ids.map (fun i => (okOf (fetch i)).getD phProd), lastErrList (ids.map fetch)) := by
  induction ids with
  | nil => rfl
  | cons i rest ih =>
      cases hf : fetch i <;>
        simp [settleProducts, ih, lastErrList, errOf, okOf, hf, phProd, jsOr_none_right]

theorem settleAll_eq (fetch : String → Except String CmsPage) (ids : List String) :
    settleAll fetch ids =
      match firstErrList (ids.map fetch) with
      | some e => .error e
      | none => .ok (ids.filterMap (fun i => okOf (fetch i))) := by
  induction ids with
  | nil => rfl
  | cons i rest ih =>
      cases hf : fetch i with
      | error e => simp [settleAll, hf, firstErrList]
      | ok p =>
          rw [settleAll, hf, ih]
          cases hrest : firstErrList (rest.map fetch) <;>
            simp [firstErrList, hf, hrest, List.filterMap_cons, okOf]

theorem lastErrList_eq_none {ε α : Type} (rs : List (Except ε α))
    (h : ∀ r ∈ rs, isOkB r = true) : lastErrList rs = none := by
  induction rs with
  | nil => rfl
  | cons r rest ih =>
      have hr := h r (by simp)
      cases r with
      | error e => simp [isOkB] at hr
      | ok a => simp [lastErrList, errOf, jsOr, ih (fun x hx => h x (by simp [hx]))]

theorem firstErrList_eq_none {ε α : Type} (rs : List (Except ε α))
    (h : ∀ r ∈ rs, isOkB r = true) : firstErrList rs = none := by
  induction rs with
  | nil => rfl
  | cons r rest ih =>
      have hr := h r (by simp)
      cases r with
      | error e => simp [isOkB] at hr
      | ok a => simp [firstErrList, ih (fun x hx => h x (by simp [hx]))]

theorem lastErrList_isSome {ε α : Type} (rs : List (Except ε α))
    (h : ∃ r ∈ rs, isOkB r = false) : ∃ e, lastErrList rs = some e := by
  induction rs with
  | nil => simp at h
  | cons r rest ih =>
      cases r with
      | error e =>
          cases hrest : lastErrList rest with
          | none => exact ⟨e, by simp [lastErrList, hrest, errOf, jsOr]⟩
          | some x => exact ⟨x, by simp [lastErrList, hrest, errOf, jsOr]⟩
      | ok a =>
          rcases h with ⟨x, hx, hxf⟩
          rcases List.mem_cons.mp hx with hx1 | hx2
          · rw [hx1] at hxf; simp [isOkB] at hxf
          · rcases ih ⟨x, hx2, hxf⟩ with ⟨e, he⟩
            exact ⟨e, by simp [lastErrList, he, errOf, jsOr]⟩

theorem firstErrList_isSome {ε α : Type} (rs : List (Except ε α))
    (h : ∃ r ∈ rs, isOkB r = false) : ∃ e, firstErrList rs = some e := by
  induction rs with
  | nil => simp at h
  | cons r rest ih =>
      cases r with
      | error e => exact ⟨e, by simp [firstErrList]⟩
      | ok a =>
          rcases h with ⟨x, hx, hxf⟩
          rcases List.mem_cons.mp hx with hx1 | hx2
          · rw [hx1] at hxf; simp [isOkB] at hxf
          · rcases ih ⟨x, hx2, hxf⟩ with ⟨e, he⟩
            exact ⟨e, by simp [firstErrList, he]⟩

/- The search loop of `getRelevantCategories` keeps the match latest in
pre-order. -/

mutual
theorem grcLoop_spec : ∀ (l : CatList) (pid : ParentArg) (t : Bool) (acc : Option NodeList),
    pid.truthy = true → allDefinedList l = true →
    grcLoop l pid t acc =
      .ok (jsOr ((lastMatchList l pid).map (fun s => shapeCats t (subOrEmpty s))) acc)
| .nil, pid, t, acc, _, _ => by simp [grcLoop, lastMatchList, jsOr]
| .cons (.mk i n u sub) rest, pid, t, acc, hp, hd => by
    have hsplit : allDefinedSub sub = true ∧ allDefinedList rest = true := by
      simpa only [allDefinedList, Bool.and_eq_true] using hd
    have hsub := getRelevantCategories_spec sub pid t hp hsplit.1
    have hstep : grcLoop (.cons (.mk i n u sub) rest) pid t acc =
        grcLoop rest pid t
          (jsOr ((lastMatchSub sub pid).map (fun s => shapeCats t (subOrEmpty s)))
            (if pid.matchesId i then some (shapeCats t (subOrEmpty sub)) else acc)) := by
      rw [grcLoop, hsub]
      rfl
    rw [hstep, grcLoop_spec rest pid t _ hp hsplit.2]
    simp only [lastMatchList, jsOr_map, jsOr_assoc]
    cases hm : pid.matchesId i <;> simp [hm, jsOr]
theorem getRelevantCategories_spec : ∀ (s : Subcats) (pid : ParentArg) (t : Bool),
    pid.truthy = true → allDefinedSub s = true →
    getRelevantCategories s pid t =
      .ok ((lastMatchSub s pid).map (fun x => shapeCats t (subOrEmpty x)))
| .undefined, _, _, _, hd => by simp [allDefinedSub] at hd
| .arr l, pid, t, hp, hd => by
    have h := grcLoop_spec l pid t none hp (by simpa only [allDefinedSub] using hd)
    simp [getRelevantCategories, hp, h, lastMatchSub, jsOr_none_right]
end

/- `buildCache` succeeds exactly on fully-defined forests, replaying its
`Map.set` sequence; otherwise it throws a `TypeError`. -/

mutual
theorem buildCache_ok_eq : ∀ (l : CatList) (m : JsMap), allDefinedList l = true →
    buildCache m l = .ok (setsAll m (cachePairs l))
| .nil, m, _ => by simp [buildCache, cachePairs, setsAll]
| .cons (.mk i n u sub) rest, m, hd => by
    have hsplit : allDefinedSub sub = true ∧ allDefinedList rest = true := by
      simpa only [allDefinedList, Bool.and_eq_true] using hd
    have hstep : buildCache m (.cons (.mk i n u sub) rest) =
        buildCache (setsAll (jsSet (jsSet m i u) u i) (cachePairsSub sub)) rest := by
      rw [buildCache, buildCacheSub_ok_eq sub (jsSet (jsSet m i u) u i) hsplit.1]
    rw [hstep, buildCache_ok_eq rest _ hsplit.2]
    simp [cachePairs, setsAll, List.foldl_append]
theorem buildCacheSub_ok_eq : ∀ (s : Subcats) (m : JsMap), allDefinedSub s = true →
    buildCacheSub m s = .ok (setsAll m (cachePairsSub s))
| .undefined, _, hd => by simp [allDefinedSub] at hd
| .arr l, m, hd => buildCache_ok_eq l m (by simpa only [allDefinedSub] using hd)
end

mutual
theorem buildCache_err : ∀ (l : CatList) (m : JsMap), allDefinedList l = false →
    buildCache m l = .error .typeError
| .nil, _, hd => by simp [allDefinedList] at hd
| .cons (.mk i n u sub) rest, m, hd => by
    cases hs : allDefinedSub sub with
    | false =>
        rw [buildCache, buildCacheSub_err sub _ hs]
    | true =>
        have hrest : allDefinedList rest = false := by
          simpa only [allDefinedList, hs, Bool.true_and] using hd
        have hstep : buildCache m (.cons (.mk i n u sub) rest) =
            buildCache (setsAll (jsSet (jsSet m i u) u i) (cachePairsSub sub)) rest := by
          rw [buildCache, buildCacheSub_ok_eq sub _ hs]
        rw [hstep]
        exact buildCache_err rest _ hrest
theorem buildCacheSub_err : ∀ (s : Subcats) (m : JsMap), allDefinedSub s = false →
    buildCacheSub m s = .error .typeError
| .undefined, _, _ => rfl
| .arr l, m, hd => buildCache_err l m (by simpa only [allDefinedSub] using hd)
end

/- Association-list lemmas about the `Map` model. -/

theorem beqString_false_of_ne {a b : String} (h : ¬ a = b) : (a == b) = false := by
  cases hb : a == b
  · rfl
  · exact absurd (eq_of_beq hb) h

theorem jsGet_set_self (m : JsMap) (k v : String) : jsGet (jsSet m k v) k = some v := by
  induction m with
  | nil => simp [jsSet, jsGet]
  | cons p rest ih =>
      by_cases hp : p.1 = k
      · simp [jsSet, jsGet, beq_iff_eq.mpr hp]
      · simp [jsSet, jsGet, beqString_false_of_ne hp, ih]

theorem jsGet_set_other (m : JsMap) (k v q : String) (h : ¬ q = k) :
    jsGet (jsSet m k v) q = jsGet m q := by
  have hkq : (k == q) = false := beqString_false_of_ne (fun he => h he.symm)
  induction m with
  | nil => simp [jsSet, jsGet, hkq]
  | cons p rest ih =>
      by_cases hp : p.1 = k
      · have hpq : (p.1 == q) = false := by rw [hp]; exact hkq
        simp [jsSet, jsGet, beq_iff_eq.mpr hp, hkq, hpq]
      · cases hpq : p.1 == q <;>
          simp [jsSet, jsGet, beqString_false_of_ne hp, hpq, ih]

theorem jsHas_eq_isSome (m : JsMap) (k : String) : jsHas m k = (jsGet m k).isSome := by
  induction m with
  | nil => rfl
  | cons p rest ih => cases hp : p.1 == k <;> simp [jsHas, jsGet, hp, ih]

theorem jsHas_set_self (m : JsMap) (k v : String) : jsHas (jsSet m k v) k = true := by
  simp [jsHas_eq_isSome, jsGet_set_self]

theorem jsHas_set_mono (m : JsMap) (k v q : String) (h : jsHas m q = true) :
    jsHas (jsSet m k v) q = true := by
  by_cases hqk : q = k
  · rw [hqk]
    exact jsHas_set_self m k v
  · rw [jsHas_eq_isSome, jsGet_set_other m k v q hqk]
    rw [jsHas_eq_isSome] at h
    exact h

theorem setsAll_cons (m : JsMap) (p : String × String) (ps : List (String × String)) :
    setsAll m (p :: ps) = setsAll (jsSet m p.1 p.2) ps := rfl

theorem jsGet_setsAll_fresh (ps : List (String × String)) (m : JsMap) (k : String)
    (h : k ∉ ps.map Prod.fst) : jsGet (setsAll m ps) k = jsGet m k := by
  induction ps generalizing m with
  | nil => rfl
  | cons p rest ih =>
      have hk : ¬ k = p.1 := fun he => h (by simp [he])
      rw [setsAll_cons, ih _ (fun hm => h (by simp [hm]))]
      exact jsGet_set_other m p.1 p.2 k hk

theorem jsGet_setsAll_mem (ps : List (String × String)) (m : JsMap) (k v : String)
    (hmem : (k, v) ∈ ps) (hnd : (ps.map Prod.fst).Nodup) :
    jsGet (setsAll m ps) k = some v := by
  induction ps generalizing m with
  | nil => simp at hmem
  | cons p rest ih =>
      rw [List.map_cons] at hnd
      have hnd2 := List.nodup_cons.mp hnd
      rcases List.mem_cons.mp hmem with he | hr
      · subst he
        rw [setsAll_cons]
        rw [jsGet_setsAll_fresh rest _ k (by simpa using hnd2.1)]
        exact jsGet_set_self m k v
      · rw [setsAll_cons]
        exact ih _ hr hnd2.2

theorem jsHas_setsAll_mono (ps : List (String × String)) (m : JsMap) (k : String)
    (h : jsHas m k = true) : jsHas (setsAll m ps) k = true := by
  induction ps generalizing m with
  | nil => exact h
  | cons p rest ih =>
      rw [setsAll_cons]
      exact ih _ (jsHas_set_mono m p.1 p.2 k h)

theorem jsHas_setsAll_mem (ps : List (String × String)) (m : JsMap) (k : String)
    (h : k ∈ ps.map Prod.fst) : jsHas (setsAll m ps) k = true := by
  induction ps generalizing m with
  | nil => simp at h
  | cons p rest ih =>
      rw [List.map_cons] at h
      rcases List.mem_cons.mp h with he | hr
      · rw [setsAll_cons]
        exact jsHas_setsAll_mono rest _ k (by rw [he]; exact jsHas_set_self m p.1 p.2)
      · rw [setsAll_cons]
        exact ih _ hr

/- Every reachable node contributes both cache directions and a flat-list
entry. -/

theorem jsOr_eq_none {α : Type} (a b : Option α) :
    jsOr a b = none ↔ a = none ∧ b = none := by
  cases a <;> simp [jsOr]

mutual
theorem reach_cachePairs : ∀ (l : CatList) (c : Category), c ∈ reachList l →
    (c.id, c.url) ∈ cachePairs l ∧ (c.url, c.id) ∈ cachePairs l
| .nil, c, hc => by simp [reachList] at hc
| .cons (.mk i n u sub) rest, c, hc => by
    simp only [reachList, List.mem_cons, List.mem_append] at hc
    rcases hc with he | hsub | hrest
    · subst he
      simp [cachePairs, Category.id, Category.url]
    · have h := reach_cachePairsSub sub c hsub
      simp [cachePairs, h.1, h.2]
    · have h := reach_cachePairs rest c hrest
      simp [cachePairs, h.1, h.2]
theorem reach_cachePairsSub : ∀ (s : Subcats) (c : Category), c ∈ reachSub s →
    (c.id, c.url) ∈ cachePairsSub s ∧ (c.url, c.id) ∈ cachePairsSub s
| .undefined, c, hc => by simp [reachSub] at hc
| .arr l, c, hc => by
    have h := reach_cachePairs l c (by simpa [reachSub] using hc)
    simpa [cachePairsSub] using h
end

theorem listHasId_append : ∀ (a b : NodeList) (i : String),
    listHasId (NodeList.append a b) i = (listHasId a i || listHasId b i)
| .nil, b, i => rfl
| .cons (.mk j lb ch) rest, b, i => by
    simp [NodeList.append, listHasId, listHasId_append rest b i, Bool.or_assoc]

mutual
theorem reach_listHasId : ∀ (l : CatList) (c : Category), c ∈ reachList l →
    listHasId (getCategoryList l) c.id = true
| .nil, c, hc => by simp [reachList] at hc
| .cons (.mk i n u sub) rest, c, hc => by
    simp only [reachList, List.mem_cons, List.mem_append] at hc
    rcases hc with he | hsub | hrest
    · subst he
      simp [getCategoryList, listHasId, Category.id]
    · simp [getCategoryList, listHasId, listHasId_append, reach_listHasIdSub sub c hsub]
    · simp [getCategoryList, listHasId, listHasId_append, reach_listHasId rest c hrest]
theorem reach_listHasIdSub : ∀ (s : Subcats) (c : Category), c ∈ reachSub s →
    listHasId (listSub s) c.id = true
| .undefined, c, hc => by simp [reachSub] at hc
| .arr .nil, c, hc => by simp [reachSub, reachList] at hc
| .arr (.cons d rest), c, hc =>
    reach_listHasId (.cons d rest) c (by simpa [reachSub] using hc)
end

/- The loop finds nothing exactly when no reachable node matches. -/

mutual
theorem lastMatchList_none_iff : ∀ (l : CatList) (pid : ParentArg),
    lastMatchList l pid = none ↔ ∀ c ∈ reachList l, pid.matchesId c.id = false
| .nil, pid => by simp [lastMatchList, reachList]
| .cons (.mk i n u sub) rest, pid => by
    have h1 := lastMatchList_none_iff rest pid
    have h2 := lastMatchSub_none_iff sub pid
    have h3 : ((if pid.matchesId i then some sub else none) = none) ↔
        pid.matchesId i = false := by
      cases hm : pid.matchesId i <;> simp [hm]
    rw [lastMatchList, jsOr_eq_none, jsOr_eq_none, h1, h2, h3]
    constructor
    · rintro ⟨hr, hs, hi⟩ c hc
      rw [reachList] at hc
      rcases List.mem_cons.mp hc with he | hmem
      · subst he
        exact hi
      · rcases List.mem_append.mp hmem with h4 | h5
        · exact hs c h4
        · exact hr c h5
    · intro h
      refine ⟨fun c hc => h c ?_, fun c hc => h c ?_, ?_⟩
      · rw [reachList]
        exact List.mem_cons_of_mem _ (List.mem_append.mpr (Or.inr hc))
      · rw [reachList]
        exact List.mem_cons_of_mem _ (List.mem_append.mpr (Or.inl hc))
      · have hh := h (.mk i n u sub) (by rw [reachList]; exact List.mem_cons_self _ _)
        simpa [Category.id] using hh
theorem lastMatchSub_none_iff : ∀ (s : Subcats) (pid : ParentArg),
    lastMatchSub s pid = none ↔ ∀ c ∈ reachSub s, pid.matchesId c.id = false
| .undefined, pid => by simp [lastMatchSub, reachSub]
| .arr l, pid => by
    have h := lastMatchList_none_iff l pid
    simpa [lastMatchSub, reachSub] using h
end

/- With a fully-defined forest the search cannot throw. -/

theorem getRelevantCategories_ok (l : CatList) (p : ParentArg) (t : Bool)
    (hd : allDefinedList l = true) :
    ∃ o, getRelevantCategories (.arr l) p t = .ok o := by
  cases hp : p.truthy with
  | true =>
      exact ⟨_, getRelevantCategories_spec (.arr l) p t hp (by simpa [allDefinedSub] using hd)⟩
  | false =>
      exact ⟨some (if t then buildCategoryTree l else getCategoryList l),
        by simp [getRelevantCategories, hp]⟩

/- Central equations of the three bulk resolvers. -/

theorem fetchCategoriesByIds_eq (fetch : String → Except String CatData) (ids : List String) :
    fetchCategoriesByIds fetch ids =
      match lastErrList (ids.map fetch) with
      | some e => .error e
      | none =>
          .ok { categories := ((ids.map (fun i => (okOf (fetch i)).getD phCat)).filter
                  (fun d => !d.errors)).map (fun d => ⟨d.id, d.name⟩)
                status := 200 } := by
  simp only [fetchCategoriesByIds, settleByIds_eq]

theorem fetchProducts_eq (fetch : String → Except String ProductData) (ids : List String) :
    fetchProducts fetch ids =
      match lastErrList (ids.map fetch) with
      | some e => .error (.shopError e)
      | none =>
          .ok { products := ((ids.map (fun i => (okOf (fetch i)).getD phProd)).filter
                  (fun p => !p.errors)).map transformProduct
                total := ((ids.map (fun i => (okOf (fetch i)).getD phProd)).filter
                  (fun p => !p.errors)).length
                hasNext := false
                responseStatus := 200 } := by
  simp only [fetchProducts, settleProducts_eq]

theorem fetchContentPages_eq (fetch : String → Except String CmsPage) (ids : List String) :
    fetchContentPages fetch ids =
      match firstErrList (ids.map fetch) with
      | some e => .error e
      | none =>
          .ok { pages := ((ids.filterMap (fun i => okOf (fetch i))).map
                  createContentPageResponseBody).filter (fun p => !(p.id == ""))
                total := (((ids.filterMap (fun i => okOf (fetch i))).map
                  createContentPageResponseBody).filter (fun p => !(p.id == ""))).length
                hasNext := false
                responseStatus := 200 } := by
  rw [fetchContentPages, settleAll_eq]
  cases hf : firstErrList (ids.map fetch) <;> rfl

theorem allOk_map_getD {α : Type} (fetch : String → Except String α) (ph : α)
    (ids : List String) (h : ∀ i ∈ ids, isOkB (fetch i) = true) :
    ids.map (fun i => (okOf (fetch i)).getD ph) = ids.filterMap (fun i => okOf (fetch i)) := by
  induction ids with
  | nil => rfl
  | cons i rest ih =>
      have hi := h i (by simp)
      cases hf : fetch i with
      | error e => rw [hf] at hi; simp [isOkB] at hi
      | ok d =>
          have ih2 := ih (fun j hj => h j (by simp [hj]))
          simp only [List.map_cons, List.filterMap_cons, hf, okOf, Option.getD_some]
          simp only [okOf] at ih2
          rw [ih2]

example :
    getCategoryList
      (.cons (.mk "a" "A" "ua" (.arr (.cons (.mk "b" "B" "ub" .undefined) .nil))) .nil)
    = .cons (.mk "a" "A" .omitted) (.cons (.mk "b" "B" .omitted) .nil) := by decide

example :
    countCategories
      (buildCategoryTree
        (.cons (.mk "a" "A" "ua" (.arr (.cons (.mk "b" "B" "ub" .undefined) .nil))) .nil)) = 2 := by
  decide


/- ------------------------------------------------------------------ -/
/- Claim theorems. -/

/-- Claim C7: for every category forest, the length of the flat list built
by `getCategoryList` equals `countCategories` applied to the tree built by
`buildCategoryTree` on the same input — both count every node of the
forest at every depth. -/
theorem claim_C7_flat_length_eq_tree_count (l : CatList) :
    (getCategoryList l).length = countCategories (buildCategoryTree l) :=
  getCategoryList_length_eq l

/-- Claim C8: `buildCategoryTree` maps each category to
`{id, label, children?}` with `label` the remote `name`, and the
`children` key is entirely omitted (never an empty array) exactly when the
subcategory list is empty or absent. -/
theorem claim_C8_children_key_omitted (i n u : String) (sub : Subcats) (rest : CatList) :
    buildCategoryTree (.cons (.mk i n u sub) rest)
        = .cons (.mk i n (childrenOf (buildTreeSub sub))) (buildCategoryTree rest)
      ∧ (childrenOf (buildTreeSub sub) = .omitted ↔ (sub = .undefined ∨ sub = .arr .nil)) := by
  refine ⟨rfl, ?_⟩
  rw [childrenOf_eq_omitted_iff, buildTreeSub_eq_nil_iff]

/-- Witness for C8: a category with an empty subcategory array yields a
node without the `children` key; a non-empty one yields the key. -/
theorem claim_C8_witness :
    childrenOf (buildTreeSub (.arr .nil)) = .omitted
      ∧ buildCategoryTree (.cons (.mk "a" "A" "ua" (.arr .nil)) .nil)
        = .cons (.mk "a" "A" (childrenOf (buildTreeSub (.arr .nil)))) (buildCategoryTree .nil) := by
  have h := claim_C8_children_key_omitted "a" "A" "ua" (.arr .nil) .nil
  exact ⟨h.2.mpr (Or.inr rfl), h.1⟩

/-- Claim C9: the write-direction transformer encodes visibility as
`visible = true ↦ approvalStatus = APPROVED, pageStatus = ACTIVE` and
`visible = false ↦ approvalStatus = UNAPPROVED, pageStatus = DELETED`; it
is a pure function of its inputs. -/
theorem claim_C9_visibility_enums (b : WriteBody) (lang : String) (uuid : Option String) :
    (b.visible = true →
        (createContentPageRequestBody b lang uuid).approvalStatus = "APPROVED"
          ∧ (createContentPageRequestBody b lang uuid).pageStatus = "ACTIVE")
      ∧ (b.visible = false →
        (createContentPageRequestBody b lang uuid).approvalStatus = "UNAPPROVED"
          ∧ (createContentPageRequestBody b lang uuid).pageStatus = "DELETED") := by
  cases hv : b.visible <;> simp [createContentPageRequestBody, hv]

/-- Witness for C9 at a concrete invisible page body. -/
theorem claim_C9_witness :
    (createContentPageRequestBody ⟨"home", "tpl", false⟩ "EN" none).approvalStatus = "UNAPPROVED"
      ∧ (createContentPageRequestBody ⟨"home", "tpl", false⟩ "EN" none).pageStatus = "DELETED" :=
  (claim_C9_visibility_enums ⟨"home", "tpl", false⟩ "EN" none).2 rfl

/-- Claim C4: `categoriesGet` paginates the in-memory flat list with page
size 20: `total` is the keyword-filtered length before slicing, the
returned slice is `items[20*(page-1) .. 20*page)`, and `hasNext` is the
literal formula `page * pageSize <= total`, so a boundary page whose slice
exactly consumes the last item still reports `hasNext = true`. -/
theorem claim_C4_pagination (cache : JsMap) (resp : Except String RemoteResp)
    (pid : ParentArg) (kw : String) (page : Nat) (m : JsMap) (fr : FetchRet)
    (hpage : 1 ≤ page) (hfetch : fetchCategories cache resp pid false = .ok (m, fr)) :
    categoriesGet cache resp pid kw page =
      .ok { categories := NodeList.take 20 (NodeList.drop (20 * (page - 1))
              (if kw == "" then fr.data else filterCategories kw fr.data))
            total := NodeList.length (if kw == "" then fr.data else filterCategories kw fr.data)
            hasNext := decide (page * 20 ≤ NodeList.length
              (if kw == "" then fr.data else filterCategories kw fr.data)) } := by
  have h20 : 20 * page - 20 * (page - 1) = 20 := by omega
  rw [categoriesGet, hfetch]
  simp only [h20]

/-- The remote response delivering 25 flat named categories. -/
def resp25 : Except String RemoteResp := .ok { categories := some (catsN 25), status := 200 }

/-- Witness for C4: 25 filtered items; page 1 yields 20 items with
`hasNext = true`, page 2 yields the remaining 5 with `hasNext = false`. -/
theorem claim_C4_witness :
    categoriesGet [] resp25 .absent "" 1
        = .ok { categories := nodesN 20, total := 25, hasNext := true }
      ∧ categoriesGet [] resp25 .absent "" 2
        = .ok { categories := nodesN 5, total := 25, hasNext := false } := by
  constructor
  · have h := claim_C4_pagination [] resp25 .absent "" 1 [("c", "u"), ("u", "c")]
      { status := 200, data := nodesN 25, total := 25 } (by decide) (by decide)
    rw [h]
    decide
  · have h := claim_C4_pagination [] resp25 .absent "" 2 [("c", "u"), ("u", "c")]
      { status := 200, data := nodesN 25, total := 25 } (by decide) (by decide)
    rw [h]
    decide

/-- Claim C6: bulk content-page resolution is strict — if any identifier
fetch fails, `fetchContentPages` and `contentPagesContentIdsGet` fail with
the first error encountered and return no partial page set; only when all
fetches succeed is a result returned. -/
theorem claim_C6_strict_batch (fetch : String → Except String CmsPage) (ids : List String) :
    ((∃ i ∈ ids, isOkB (fetch i) = false) →
        ∃ e, firstErrList (ids.map fetch) = some e
          ∧ fetchContentPages fetch ids = .error e
          ∧ contentPagesContentIdsGet fetch ids = .error e)
      ∧ ((∀ i ∈ ids, isOkB (fetch i) = true) → isOkB (fetchContentPages fetch ids) = true) := by
  constructor
  · rintro ⟨i, hi, hf⟩
    have hex : ∃ r ∈ ids.map fetch, isOkB r = false := ⟨fetch i, List.mem_map_of_mem _ hi, hf⟩
    rcases firstErrList_isSome _ hex with ⟨e, he⟩
    refine ⟨e, he, ?_, ?_⟩
    · rw [fetchContentPages_eq, he]
    · rw [contentPagesContentIdsGet, fetchContentPages_eq, he]
  · intro h
    have hnone : firstErrList (ids.map fetch) = none := by
      apply firstErrList_eq_none
      intro r hr
      rcases List.mem_map.mp hr with ⟨i, hi, rfl⟩
      exact h i hi
    rw [fetchContentPages_eq, hnone]
    rfl

/-- A remote CMS oracle failing on every id but `p1`. -/
def cmsFetchBad : String → Except String CmsPage := fun i =>
  if i == "p1" then .ok ⟨"u1", "Page 1", "page-1"⟩ else .error "cms down"

/-- Witness for C6: with two identifiers of which the second fails, the
batch rejects with that error; nothing is returned for the identifier that
succeeded. -/
theorem claim_C6_witness :
    fetchContentPages cmsFetchBad ["p1", "p2"] = .error "cms down"
      ∧ contentPagesContentIdsGet cmsFetchBad ["p1", "p2"] = .error "cms down" := by
  rcases (claim_C6_strict_batch cmsFetchBad ["p1", "p2"]).1 ⟨"p2", by decide, by decide⟩
    with ⟨e, he, h1, h2⟩
  have hconc : firstErrList (["p1", "p2"].map cmsFetchBad) = some "cms down" := by decide
  have he2 : e = "cms down" := Option.some.inj (he.symm.trans hconc)
  rw [he2] at h1 h2
  exact ⟨h1, h2⟩


/-- A remote category oracle failing on every id but `c1`. -/
def catFetchBad : String → Except String CatData := fun i =>
  if i == "c1" then .ok ⟨"c1", "Cat 1", false⟩ else .error "occ down"

/-- A remote category oracle failing on every id. -/
def catFetchAllBad : String → Except String CatData := fun _ => .error "occ down"

/-- A remote category oracle succeeding on `c1` and `c2`. -/
def catFetchGood : String → Except String CatData := fun i =>
  if i == "c1" then .ok ⟨"c1", "Cat 1", false⟩ else .ok ⟨"c2", "Cat 2", false⟩

/-- A remote product oracle failing on every id but `s1`. -/
def prodFetchBad : String → Except String ProductData := fun i =>
  if i == "s1" then .ok ⟨"s1", "Prod 1", "/p/s1", [], false⟩ else .error "occ down"

/-- A remote product oracle succeeding on every id. -/
def prodFetchGood : String → Except String ProductData := fun i =>
  .ok ⟨i, "Prod", "/p", [("thumbnail", "/t.jpg"), ("product", "/i.jpg")], false⟩

/-- Counterexample to C1: with two identifiers of which one fails, the
claimed-lenient resolvers reject instead of returning the surviving entity
with `total = 1`, and when every identifier fails the result is a
rejection rather than an empty list with `total = 0`. -/
theorem claim_C1_counterexample :
    fetchCategoriesByIds catFetchBad ["c1", "c2"] = .error "occ down"
      ∧ fetchProducts prodFetchBad ["s1", "s2"] = .error (.shopError "occ down")
      ∧ fetchCategoriesByIds catFetchAllBad ["c1", "c2"] = .error "occ down" := by
  refine ⟨by decide, by decide, by decide⟩

/-- Amended C1: in `fetchCategoriesByIds` and the `productIds` branch of
`fetchProducts` each identifier's failure is caught by the per-identifier
handler, but any caught failure makes the whole call reject — categories
with the error recorded last, products with a `ShopError` wrapping it —
and no partial result is returned; only when every fetch succeeds are the
resolved entities (minus payloads flagged `errors`) returned in input
order, with the `...IdsGet` wrappers reporting `total` equal to the number
of returned entities. -/
theorem claim_C1_amended (fc : String → Except String CatData)
    (fp : String → Except String ProductData) (ids : List String) :
    ((∃ i ∈ ids, isOkB (fc i) = false) →
        ∃ e, lastErrList (ids.map fc) = some e ∧ fetchCategoriesByIds fc ids = .error e)
      ∧ ((∀ i ∈ ids, isOkB (fc i) = true) →
        ∃ cats, fetchCategoriesByIds fc ids = .ok ⟨cats, 200⟩
          ∧ cats = ((ids.filterMap (fun i => okOf (fc i))).filter
              (fun d => !d.errors)).map (fun d => ⟨d.id, d.name⟩)
          ∧ categoriesCategoryIdsGet fc ids = .ok ⟨cats, cats.length, false⟩)
      ∧ ((∃ i ∈ ids, isOkB (fp i) = false) →
        ∃ e, lastErrList (ids.map fp) = some e
          ∧ fetchProducts fp ids = .error (.shopError e))
      ∧ ((∀ i ∈ ids, isOkB (fp i) = true) →
        ∃ prods, fetchProducts fp ids = .ok ⟨prods, prods.length, false, 200⟩
          ∧ prods = ((ids.filterMap (fun i => okOf (fp i))).filter
              (fun p => !p.errors)).map transformProduct
          ∧ productsProductIdsGet fp ids = .ok ⟨prods, prods.length, false⟩) := by
  refine ⟨?_, ?_, ?_, ?_⟩
  · rintro ⟨i, hi, hf⟩
    rcases lastErrList_isSome (ids.map fc) ⟨fc i, List.mem_map_of_mem _ hi, hf⟩ with ⟨e, he⟩
    refine ⟨e, he, ?_⟩
    rw [fetchCategoriesByIds_eq, he]
  · intro h
    have hnone : lastErrList (ids.map fc) = none := by
      apply lastErrList_eq_none
      intro r hr
      rcases List.mem_map.mp hr with ⟨i, hi, rfl⟩
      exact h i hi
    have hmap := allOk_map_getD fc phCat ids h
    refine ⟨((ids.map (fun i => (okOf (fc i)).getD phCat)).filter
        (fun d => !d.errors)).map (fun d => (⟨d.id, d.name⟩ : IdLabel)), ?_, ?_, ?_⟩
    · rw [fetchCategoriesByIds_eq, hnone]
    · rw [hmap]
    · rw [categoriesCategoryIdsGet, fetchCategoriesByIds_eq, hnone]
  · rintro ⟨i, hi, hf⟩
    rcases lastErrList_isSome (ids.map fp) ⟨fp i, List.mem_map_of_mem _ hi, hf⟩ with ⟨e, he⟩
    refine ⟨e, he, ?_⟩
    rw [fetchProducts_eq, he]
  · intro h
    have hnone : lastErrList (ids.map fp) = none := by
      apply lastErrList_eq_none
      intro r hr
      rcases List.mem_map.mp hr with ⟨i, hi, rfl⟩
      exact h i hi
    have hmap := allOk_map_getD fp phProd ids h
    refine ⟨((ids.map (fun i => (okOf (fp i)).getD phProd)).filter
        (fun p => !p.errors)).map transformProduct, ?_, ?_, ?_⟩
    · rw [fetchProducts_eq, hnone]
      simp [List.length_map]
    · rw [hmap]
    · rw [productsProductIdsGet, fetchProducts_eq, hnone]

/-- Witness for C1: two successful category fetches yield both entities
with `total = 2`; one failing fetch among two rejects the call. -/
theorem claim_C1_witness :
    categoriesCategoryIdsGet catFetchGood ["c1", "c2"]
        = .ok ⟨[⟨"c1", "Cat 1"⟩, ⟨"c2", "Cat 2"⟩], 2, false⟩
      ∧ fetchProducts prodFetchBad ["s1", "s2"] = .error (.shopError "occ down") := by
  constructor
  · rcases (claim_C1_amended catFetchGood prodFetchGood ["c1", "c2"]).2.1 (by decide)
      with ⟨cats, h1, h2, h3⟩
    have hc : cats = [⟨"c1", "Cat 1"⟩, ⟨"c2", "Cat 2"⟩] := by rw [h2]; decide
    rw [hc] at h3
    simpa using h3
  · rcases (claim_C1_amended catFetchGood prodFetchBad ["s1", "s2"]).2.2.1
      ⟨"s2", by decide, by decide⟩ with ⟨e, he, herr⟩
    have hconc : lastErrList (["s1", "s2"].map prodFetchBad) = some "occ down" := by decide
    have he2 : e = "occ down" := Option.some.inj (he.symm.trans hconc)
    rw [he2] at herr
    exact herr

/-- Counterexample to C2: in `forestNested` the nested category `b` has an
empty name, yet after `fetchCategories` it appears in the flat list, in
the tree, and in both cache directions — only top-level unnamed
categories are removed. -/
theorem claim_C2_counterexample :
    listHasId (dataOfFetch
        (fetchCategories [] (.ok ⟨some forestNested, 200⟩) .absent false)) "b" = true
      ∧ treeHasId (dataOfFetch
        (fetchCategories [] (.ok ⟨some forestNested, 200⟩) .absent true)) "b" = true
      ∧ jsGet (cacheOfFetch
        (fetchCategories [] (.ok ⟨some forestNested, 200⟩) .absent false)) "b" = some "ub"
      ∧ jsGet (cacheOfFetch
        (fetchCategories [] (.ok ⟨some forestNested, 200⟩) .absent false)) "ub" = some "b" := by
  refine ⟨by decide, by decide, by decide, by decide⟩

/-- Amended C2: the name filter applies to the top level only —
`fetchCategories` behaves as if called on `topFilter` of the forest, whose
top level is exactly the named categories; every node still reachable
after that filter (including empty-named nodes nested below a named
category) keeps its flat-list entry and both its cache key directions. -/
theorem claim_C2_amended (f : CatList) (c : JsMap) (s : Nat) (p : ParentArg) (t : Bool) :
    ((topFilter f).toList = f.toList.filter (fun x => !(x.name == "")))
      ∧ (fetchCategories c (.ok ⟨some f, s⟩) p t
          = fetchCategories c (.ok ⟨some (topFilter f), s⟩) p t)
      ∧ (∀ m, buildCache c (topFilter f) = .ok m →
          ∀ n ∈ reachList (topFilter f), jsHas m n.id = true ∧ jsHas m n.url = true)
      ∧ (∀ n ∈ reachList (topFilter f),
          listHasId (getCategoryList (topFilter f)) n.id = true) := by
  refine ⟨topFilter_toList f, ?_, ?_, ?_⟩
  · simp [fetchCategories, topFilter_idem]
  · intro m hm n hn
    cases hd : allDefinedList (topFilter f) with
    | false => rw [buildCache_err _ c hd] at hm; exact absurd hm (by simp)
    | true =>
        rw [buildCache_ok_eq _ c hd] at hm
        have hm2 : m = setsAll c (cachePairs (topFilter f)) := (Except.ok.inj hm).symm
        subst hm2
        have hp := reach_cachePairs _ n hn
        constructor
        · exact jsHas_setsAll_mem _ c n.id (List.mem_map_of_mem Prod.fst hp.1)
        · exact jsHas_setsAll_mem _ c n.url (List.mem_map_of_mem Prod.fst hp.2)
  · intro n hn
    exact reach_listHasId _ n hn

/-- Witness for C2: in the filtered `forestNested` the nested unnamed
category keeps both its cache entries. -/
theorem claim_C2_witness :
    jsHas (cacheOfBuild (buildCache [] (topFilter forestNested))) "b" = true
      ∧ jsHas (cacheOfBuild (buildCache [] (topFilter forestNested))) "ub" = true := by
  have h := (claim_C2_amended forestNested [] 200 .absent false).2.2.1
    (cacheOfBuild (buildCache [] (topFilter forestNested))) (by decide)
    (Category.mk "b" "" "ub" (.arr .nil)) (by decide)
  exact h

/-- Counterexample to C3: in `dupForest` two siblings share the id `p`;
the search returns the shaped subcategory list of the *last* matching
sibling (`[y]`), not of the first (whose shaped list is `[x]`), so the
search is not first-match-wins. -/
theorem claim_C3_counterexample :
    getRelevantCategories (.arr dupForest) (.str "p") false
        = .ok (some (.cons (.mk "y" "Y" .omitted) .nil))
      ∧ getCategoryList (.cons (.mk "x" "X" "ux" (.arr .nil)) .nil)
        = .cons (.mk "x" "X" .omitted) .nil
      ∧ NodeList.cons (.mk "y" "Y" .omitted) .nil ≠ NodeList.cons (.mk "x" "X" .omitted) .nil := by
  refine ⟨by decide, by decide, by decide⟩

/-- Amended C3: for every fully-defined forest and non-empty string
`parentId`, the search is depth-first with last-match-wins (later siblings
and deeper matches overwrite earlier ones): it returns the subcategory
list of the pre-order-last matching node shaped as tree or flat list, and
`undefined` (`none`) exactly when no reachable node's identifier equals
`parentId` — distinct from a found node with an empty subcategory list,
which yields `some` empty list. -/
theorem claim_C3_amended (f : CatList) (pid : String) (t : Bool)
    (hpid : ¬ pid = "") (hd : allDefinedList f = true) :
    getRelevantCategories (.arr f) (.str pid) t
        = .ok ((lastMatchList f (.str pid)).map (fun x => shapeCats t (subOrEmpty x)))
      ∧ (lastMatchList f (.str pid) = none ↔
          ∀ c ∈ reachList f, (ParentArg.str pid).matchesId c.id = false) := by
  have htr : (ParentArg.str pid).truthy = true := by
    simp [ParentArg.truthy, beqString_false_of_ne hpid]
  exact ⟨getRelevantCategories_spec (.arr f) _ t htr (by simpa [allDefinedSub] using hd),
    lastMatchList_none_iff f _⟩

/-- Witness for C3: searching `forestNested` for `a` returns its child
list, for `b` (a leaf) the empty list, and for an id absent from the
forest `undefined`. -/
theorem claim_C3_witness :
    getRelevantCategories (.arr forestNested) (.str "a") false
        = .ok (some (.cons (.mk "b" "" .omitted) .nil))
      ∧ getRelevantCategories (.arr forestNested) (.str "b") false = .ok (some .nil)
      ∧ getRelevantCategories (.arr forestNested) (.str "zz") false = .ok none := by
  refine ⟨?_, ?_, ?_⟩
  · have h := (claim_C3_amended forestNested "a" false (by decide) (by decide)).1
    rw [h]; decide
  · have h := (claim_C3_amended forestNested "b" false (by decide) (by decide)).1
    rw [h]; decide
  · have h := (claim_C3_amended forestNested "zz" false (by decide) (by decide)).1
    rw [h]; decide


/-- Counterexample to C5: `collideForest` holds two categories with the
same id `a` and urls `u1`, `u2`; after cache population the single `a`
entry holds `u2`, so the first encountered category's id does not map to
its own url — the per-category bidirectional invariant fails when ids and
urls collide as keys of the shared map. -/
theorem claim_C5_counterexample :
    (Category.mk "a" "A" "u1" (.arr .nil)) ∈ reachList collideForest
      ∧ jsGet (cacheOfBuild (buildCache [] collideForest)) "a" = some "u2"
      ∧ ¬ ((some "u2" : Option String) = some "u1") := by
  refine ⟨by decide, by decide, by decide⟩

/-- Amended C5: provided the ids and urls occurring in the forest are
pairwise distinct as keys, cache population gives every encountered
category exactly its two entries (`id ↦ url` and `url ↦ id`); with a
non-empty cache `getCategoryUrl` answers from the cache without consulting
the remote response, a missing id yields `null` rather than an error, and
with an empty cache a failing triggered fetch propagates as an error. -/
theorem claim_C5_amended (f : CatList) (m mc : JsMap) (cid : String)
    (r r2 : Except String RemoteResp) (e : String) :
    (((cachePairs f).map Prod.fst).Nodup → allDefinedList f = true →
        buildCache [] f = .ok m →
        ∀ n ∈ reachList f, jsGet m n.id = some n.url ∧ jsGet m n.url = some n.id)
      ∧ (mc ≠ [] →
        getCategoryUrl mc r cid = getCategoryUrl mc r2 cid
          ∧ getCategoryUrl mc r cid
            = .ok (mc, if jsHas mc cid then jsGet mc cid else none))
      ∧ (getCategoryUrl [] (.error e) cid = .error (.remote e)) := by
  refine ⟨?_, ?_, ?_⟩
  · intro hnd hdef hok n hn
    rw [buildCache_ok_eq f [] hdef] at hok
    have hm : m = setsAll [] (cachePairs f) := (Except.ok.inj hok).symm
    subst hm
    have hp := reach_cachePairs f n hn
    exact ⟨jsGet_setsAll_mem _ [] n.id n.url hp.1 hnd,
      jsGet_setsAll_mem _ [] n.url n.id hp.2 hnd⟩
  · intro hmc
    cases mc with
    | nil => exact absurd rfl hmc
    | cons p rest => exact ⟨by simp [getCategoryUrl], by simp [getCategoryUrl]⟩
  · rfl

/-- Witness for C5: the collision-free `forestNested` cache resolves both
directions for both categories; a warm cache answers without a fetch, and
a cold cache propagates the fetch failure. -/
theorem claim_C5_witness :
    jsGet (cacheOfBuild (buildCache [] forestNested)) "a" = some "ua"
      ∧ jsGet (cacheOfBuild (buildCache [] forestNested)) "ua" = some "a"
      ∧ getCategoryUrl [("a", "ua")] (.error "down") "zz" = .ok ([("a", "ua")], none)
      ∧ getCategoryUrl [] (.error "down") "a" = .error (.remote "down") := by
  have h1 := (claim_C5_amended forestNested
      (cacheOfBuild (buildCache [] forestNested)) [("a", "ua")] "zz"
      (.error "down") (.error "down") "down").1
    (by decide) (by decide) (by decide)
    (Category.mk "a" "A" "ua" (.arr (.cons (.mk "b" "" "ub" (.arr .nil)) .nil)))
    (by decide)
  have h2 := (claim_C5_amended forestNested
      (cacheOfBuild (buildCache [] forestNested)) [("a", "ua")] "zz"
      (.error "down") (.error "down") "down").2.1 (by decide)
  have h3 := (claim_C5_amended forestNested
      (cacheOfBuild (buildCache [] forestNested)) [("a", "ua")] "a"
      (.error "down") (.error "down") "down").2.2
  refine ⟨h1.1, h1.2, ?_, h3⟩
  rw [h2.2]
  decide

/-- Counterexample to C10: in `shadowForest` the node `w` lacks
`subcategories`, but its only ancestor has an empty name and is removed by
the top-level filter before `buildCache` runs, so `fetchCategories` (and
`getCategoryUrl` on an empty cache) completes normally instead of throwing
— even though `buildCache` applied to the raw forest does throw. -/
theorem claim_C10_counterexample :
    allDefinedList shadowForest = false
      ∧ buildCache [] shadowForest = .error .typeError
      ∧ fetchCategories [] (.ok ⟨some shadowForest, 200⟩) .absent false
          = .ok ([], { status := 200, data := .nil, total := 0 })
      ∧ getCategoryUrl [] (.ok ⟨some shadowForest, 200⟩) "w" = .ok ([], none) := by
  refine ⟨by decide, by decide, by decide, by decide⟩

/-- Amended C10: `buildCache` throws a `TypeError` exactly when some node
of the forest it receives, at any depth, lacks the `subcategories` field;
`fetchCategories` drops unnamed top-level categories first, and throws
exactly when a node of that filtered forest lacks `subcategories`,
completing normally otherwise. -/
theorem claim_C10_amended (m : JsMap) (l f : CatList) (s : Nat) (p : ParentArg) (t : Bool) :
    (buildCache m l = .error .typeError ↔ allDefinedList l = false)
      ∧ (isOkB (fetchCategories m (.ok ⟨some f, s⟩) p t) = true
          ↔ allDefinedList (topFilter f) = true) := by
  constructor
  · constructor
    · intro h
      cases hd : allDefinedList l with
      | false => rfl
      | true =>
          rw [buildCache_ok_eq l m hd] at h
          exact absurd h (by simp)
    · intro hd
      exact buildCache_err l m hd
  · cases hd : allDefinedList (topFilter f) with
    | true =>
        rcases getRelevantCategories_ok (topFilter f) p t hd with ⟨o, ho⟩
        simp only [fetchCategories, Option.getD_some]
        rw [buildCache_ok_eq _ m hd, ho]
        simp [isOkB]
    | false =>
        simp only [fetchCategories, Option.getD_some]
        rw [buildCache_err _ m hd]
        simp [isOkB]

/-- Witness for C10: a one-node forest lacking `subcategories` makes
`buildCache` throw, while a fully-defined forest makes `fetchCategories`
complete. -/
theorem claim_C10_witness :
    buildCache [] (.cons (.mk "w" "W" "uw" .undefined) .nil) = .error .typeError
      ∧ isOkB (fetchCategories [] (.ok ⟨some (catsN 2), 200⟩) .absent false) = true := by
  constructor
  · exact (claim_C10_amended [] (.cons (.mk "w" "W" "uw" .undefined) .nil)
      .nil 200 .absent false).1.mpr (by decide)
  · exact (claim_C10_amended [] .nil (catsN 2) 200 .absent false).2.mpr (by decide)

end SapBridge
